import Mathlib

/-!
# Verification of the ezplayer native ICMP prober (icmp-ping/addon.cpp)

A shallow embedding of `src/apps/ezplayer-ui-electron/mainsrc/icmp-ping/addon.cpp`:
the asynchronous ICMP reachability prober that runs on one background thread.

Modelling conventions:
* Machine integers are `Nat`/`Int` with explicit `% 2^w` where the source wraps
  (the `uint16_t next_seq` counter, bytes as `Nat` below 256).
* Monotonic-clock time points are integers at millisecond granularity
  (`std::chrono::steady_clock` values; `duration_cast<milliseconds>` in the
  source).  The source reports elapsed time as microseconds divided by
  1000.0 into a double; no claim depends on sub-millisecond precision, so
  `Outcome.elapsed_ms` is carried as an integer number of milliseconds.
* The one background thread is modelled as explicit state passing: one
  iteration of `ping_thread_func`'s while-loop becomes a pure step function
  whose oracle inputs (DNS answers, sendto results, datagrams drained from the
  socket, poll readiness, clock readings) are parameters.
* Delivering an outcome (`post_result`, i.e. one `tsfn.NonBlockingCall`
  invocation for a request) is modelled as appending the pair
  (request id, outcome) to a result list.
* Request identity: each `PingRequest*` allocation is modelled by a numeric
  id, so "exactly once per request" is a statement about ids.
-/

namespace IcmpPing

/-- `struct PingRequest` (addon.cpp lines 66-76): host, timeout, and the
result slot.  The result fields (`alive`, `elapsed_ms`, `error`) are written
exactly once before delivery, so they live in `Outcome` below; `id` models
the identity of the heap allocation. -/
structure PingRequest where
  id : Nat
  host : String
  timeout_ms : Int
deriving DecidableEq, Repr

/-- The outcome surface delivered to JS by `CallJs` (lines 81-94):
`alive`, `elapsed` and the optional `error` string (empty = absent). -/
structure Outcome where
  alive : Bool
  elapsed_ms : Int
  error : String
deriving DecidableEq, Repr

/-- An IPv4 address (`in_addr.s_addr`), abstract. -/
abbrev Addr := Nat

/-- POSIX `struct PendingPing` (lines 308-314): request back-reference,
sequence number, destination, start and deadline time points. -/
structure PendingPing where
  req : PingRequest
  seq : Nat
  dest : Addr
  start : Int
  deadline : Int
deriving DecidableEq, Repr

/-! ## ICMP checksum (lines 299-306)

`icmp_checksum` reads the buffer as 16-bit words in host byte order
(modelled little-endian: word i is `b[2i] + 256 * b[2i+1]`), adds a trailing
odd byte as-is, folds carries out of the low 16 bits until none remain, and
returns the bitwise complement truncated to 16 bits. -/

/-- The 16-bit words of a byte list, host (little-endian) order; a trailing
odd byte contributes as itself, exactly like `sum += data[len-1]`. -/
def words16 : List Nat → List Nat
  | [] => []
  | [b] => [b]
  | b0 :: b1 :: rest => (b0 + 256 * b1) :: words16 rest

/-- `sum` after the word loop and the odd-byte addition (lines 301-303).
The accumulator is a `uint32_t`, so every `sum += ...` wraps modulo 2^32. -/
def sumWords (bs : List Nat) : Nat :=
  (words16 bs).foldl (fun acc w => (acc + w) % 4294967296) 0

/-- `while (sum >> 16) sum = (sum & 0xFFFF) + (sum >> 16);` (line 304). -/
def foldCarry (s : Nat) : Nat :=
  if h : s < 65536 then s
  else foldCarry (s % 65536 + s / 65536)
termination_by s
decreasing_by omega

/-- `return static_cast<uint16_t>(~sum);` (line 305): the folded sum is
below 2^16, so the truncated complement of the folded `uint32_t` sum is
`65535 - sum`.  (Folding a value below 2^32 never overflows the
`uint32_t`: each step produces at most 0xFFFF + 0xFFFF.) -/
def icmp_checksum (bs : List Nat) : Nat := 65535 - foldCarry (sumWords bs)

/-- Store a 16-bit checksum value into the checksum field of the packet,
bytes 2 and 3, in the same host byte order the summation reads
(`pkt.checksum = icmp_checksum(&pkt, sizeof(pkt));`, line 353). -/
def set_checksum (bs : List Nat) (c : Nat) : List Nat :=
  (bs.set 2 (c % 256)).set 3 (c / 256)

/-! ## Outcome constructors, one per completion path of the POSIX loop -/

/-- Resolution failure (lines 333-337). -/
def dnsFailOutcome (host : String) : Outcome :=
  ⟨false, 0, "DNS resolution failed for " ++ host⟩

/-- `sendto` failure (lines 359-365); `e` stands for `strerror(errno)`. -/
def sendFailOutcome (e : String) : Outcome :=
  ⟨false, 0, "sendto: " ++ e⟩

/-- Deadline expiry (lines 431-436). -/
def timeoutOutcome : Outcome := ⟨false, 0, "timeout"⟩

/-- Forced completion at shutdown (lines 440-443). -/
def shutdownOutcome : Outcome := ⟨false, 0, "shutting down"⟩

/-- Matched echo reply (lines 411-424): alive, elapsed measured at the
harvest clock reading `tRecv` against the probe's start time. -/
def aliveOutcome (tRecv : Int) (pp : PendingPing) : Outcome :=
  ⟨true, tRecv - pp.start, ""⟩

/-! ## POSIX drain phase (lines 328-372) -/

/-- One datagram handed out by a successful `recvfrom`: raw bytes plus the
source address. -/
structure Datagram where
  bytes : List Nat
  src : Addr
deriving DecidableEq, Repr

/-- `ntohs(*reinterpret_cast<uint16_t*>(rbuf + 6))` (line 409): bytes 6 and 7
read as a big-endian 16-bit value. -/
def replySeq (d : Datagram) : Nat :=
  (d.bytes.getD 6 0) * 256 + d.bytes.getD 7 0

/-- `if (n < 8 || rbuf[0] != 0) continue;` (line 407): at least 8 bytes and
ICMP type 0 (echo reply). -/
def validEchoReply (d : Datagram) : Bool :=
  decide (8 ≤ d.bytes.length) && decide (d.bytes.getD 0 255 = 0)

/-- Accumulator of the queue-drain loop: outcomes posted so far, the pending
set (new entries are `push_back`ed after existing ones), the ids of requests
for which `sendto` was invoked, and the `uint16_t next_seq` counter. -/
structure DrainAcc where
  results : List (Nat × Outcome)
  pending : List PendingPing
  sendtoCalls : List Nat
  nextSeq : Nat
deriving DecidableEq, Repr

/-- One body of `for (auto* req : ping_queue)` (lines 331-370).  `dns` models
`resolve_host`, `sendErr` the `sendto` result (`none` = sent, `some e` =
failure with `strerror(errno) = e`), `tSend` the `steady_clock::now()` reading
at line 367. -/
def dispatchOne (dns : String → Option Addr) (sendErr : PingRequest → Option String)
    (tSend : Int) (acc : DrainAcc) (req : PingRequest) : DrainAcc :=
  match dns req.host with
  | none =>
    { acc with results := acc.results ++ [(req.id, dnsFailOutcome req.host)] }
  | some addr =>
    let sq := acc.nextSeq
    let acc' := { acc with nextSeq := (acc.nextSeq + 1) % 65536 }
    match sendErr req with
    | some e =>
      { acc' with results := acc'.results ++ [(req.id, sendFailOutcome e)],
                  sendtoCalls := acc'.sendtoCalls ++ [req.id] }
    | none =>
      { acc' with
          pending := acc'.pending ++
            [⟨req, sq, addr, tSend, tSend + req.timeout_ms⟩],
          sendtoCalls := acc'.sendtoCalls ++ [req.id] }

/-- The whole drain pass over the queue snapshot (lines 330-371), starting
from the thread's current pending set and sequence counter. -/
def drainQueue (dns : String → Option Addr) (sendErr : PingRequest → Option String)
    (tSend : Int) (queue : List PingRequest) (pending0 : List PendingPing)
    (seq0 : Nat) : DrainAcc :=
  queue.foldl (dispatchOne dns sendErr tSend) ⟨[], pending0, [], seq0⟩

/-! ## POSIX harvest phase (lines 398-427) -/

/-- The inner match loop (lines 411-425): scan `pending` from the highest
index downward, complete and erase the first entry whose sequence number and
destination match the datagram, then `break`.  Returns the posted result (if
any) and the new pending list. -/
def harvestDatagram (tRecv : Int) (rseq : Nat) (src : Addr) :
    List PendingPing → Option (Nat × Outcome) × List PendingPing
  | [] => (none, [])
  | pp :: rest =>
    match harvestDatagram tRecv rseq src rest with
    | (some r, rest') => (some r, pp :: rest')
    | (none, rest') =>
      if pp.seq = rseq ∧ pp.dest = src then
        (some (pp.req.id, aliveOutcome tRecv pp), rest')
      else
        (none, pp :: rest')

/-- The `for (;;) recvfrom` drain loop (lines 399-426): process every
available datagram in order, skipping short or non-echo-reply ones. -/
def recvLoop (tRecv : Int) (ds : List Datagram) (pending : List PendingPing) :
    List (Nat × Outcome) × List PendingPing :=
  match ds with
  | [] => ([], pending)
  | d :: rest =>
    if validEchoReply d then
      match harvestDatagram tRecv (replySeq d) d.src pending with
      | (some r, pending') =>
        let (rs, pending'') := recvLoop tRecv rest pending'
        (r :: rs, pending'')
      | (none, pending') => recvLoop tRecv rest pending'
    else recvLoop tRecv rest pending

/-! ## POSIX expiry phase (lines 429-437) -/

/-- `for (i = size-1; i >= 0; --i) if (now >= deadline) ...` : expire from the
highest index downward, so results appear in reverse pending order. -/
def expireLoop (tExpire : Int) : List PendingPing → List (Nat × Outcome) × List PendingPing
  | [] => ([], [])
  | pp :: rest =>
    let (rs, rest') := expireLoop tExpire rest
    if pp.deadline ≤ tExpire then
      (rs ++ [(pp.req.id, timeoutOutcome)], rest')
    else
      (rs, pp :: rest')

/-- The part of one loop iteration after `poll` returns: harvest replies
(only when `fds[0].revents & POLLIN`, line 398) and then expire overdue
probes (line 430 onward). -/
def afterPoll (sockReady : Bool) (tRecv tExpire : Int) (ds : List Datagram)
    (pending : List PendingPing) : List (Nat × Outcome) × List PendingPing :=
  let (rs1, p1) := if sockReady then recvLoop tRecv ds pending else ([], pending)
  let (rs2, p2) := expireLoop tExpire p1
  (rs1 ++ rs2, p2)

/-! ## POSIX poll timeout (lines 379-387) -/

/-- `int poll_ms = 200; if (!pending.empty()) { nearest = ...; remain = ...;
if (remain < poll_ms) poll_ms = remain < 0 ? 0 : remain; }`. -/
def poll_timeout (pending : List PendingPing) (now : Int) : Int :=
  match pending with
  | [] => 200
  | p0 :: rest =>
    let nearest := (p0 :: rest).foldl
      (fun acc pp => if pp.deadline < acc then pp.deadline else acc) p0.deadline
    let remain := nearest - now
    if remain < 200 then (if remain < 0 then 0 else remain) else 200

/-- The minimum deadline of a nonempty pending set. -/
def nearestDeadline (p0 : PendingPing) (rest : List PendingPing) : Int :=
  (rest.map PendingPing.deadline).foldl min p0.deadline

/-- Modelled from the spec: "a timeout equal to min(default idle interval,
time to nearest deadline)", with the default idle interval of 200 ms and a
negative remaining time clamped to 0. -/
def poll_timeout_spec (pending : List PendingPing) (now : Int) : Int :=
  match pending with
  | [] => 200
  | p0 :: rest => min 200 (max 0 (nearestDeadline p0 rest - now))

/-! ## POSIX thread loop and shutdown drain (lines 316-445) -/

/-- The oracle inputs of one while-loop iteration: DNS answers, sendto
results, the clock readings taken during the pass, poll readiness of the
socket, and the datagrams the socket will yield. -/
structure IterInput where
  dns : String → Option Addr
  sendErr : PingRequest → Option String
  tSend : Int
  tPoll : Int
  sockReady : Bool
  datagrams : List Datagram
  tRecv : Int
  tExpire : Int

/-- The thread-local loop state: the `uint16_t next_seq` counter and the
pending set. -/
structure LoopState where
  nextSeq : Nat
  pending : List PendingPing
deriving DecidableEq, Repr

/-- One iteration of `while (!shutting_down.load())` (lines 326-438):
drain the queue snapshot, compute the poll timeout, harvest, expire.
Returns the outcomes posted, the poll timeout used, and the new state. -/
def loopIter (inp : IterInput) (queue : List PingRequest) (st : LoopState) :
    List (Nat × Outcome) × Int × LoopState :=
  let acc := drainQueue inp.dns inp.sendErr inp.tSend queue st.pending st.nextSeq
  let pollMs := poll_timeout acc.pending inp.tPoll
  let (rs2, p2) := afterPoll inp.sockReady inp.tRecv inp.tExpire inp.datagrams acc.pending
  (acc.results ++ rs2, pollMs, ⟨acc.nextSeq, p2⟩)

/-- A run of the loop: each step is one iteration together with the queue
snapshot it drains. -/
def runLoop : List (IterInput × List PingRequest) → LoopState →
    List (Nat × Outcome) × LoopState
  | [], st => ([], st)
  | (inp, q) :: steps, st =>
    let (rs, _, st') := loopIter inp q st
    let (rs', st'') := runLoop steps st'
    (rs ++ rs', st'')

/-- The shutdown drain (lines 440-443): every still-pending probe is
completed with the shutdown outcome, in pending order. -/
def shutdownDrain (pending : List PendingPing) : List (Nat × Outcome) :=
  pending.map (fun pp => (pp.req.id, shutdownOutcome))

/-- The whole `ping_thread_func` (lines 316-445) as a function from its
oracle trace to the outcomes it posts.  `sockOpenOk = false` is the
`if (sock < 0) return;` path (lines 317-318): the thread exits at once and
posts nothing.  Otherwise it runs `steps` iterations of the loop, observes
the shutdown flag, and drains the pending set — `residualQueue`, the content
of `ping_queue` that no iteration drained before the flag was observed, is
not touched by any path of the function. -/
def ping_thread_model (sockOpenOk : Bool)
    (steps : List (IterInput × List PingRequest))
    (residualQueue : List PingRequest) (st : LoopState) : List (Nat × Outcome) :=
  if sockOpenOk then
    let (rs, st') := runLoop steps st
    rs ++ shutdownDrain st'.pending
  else []

/-! ## Windows (Variant A) harvest and expiry phases (lines 240-282) -/

/-- What `IcmpParseReplies` plus the first `ICMP_ECHO_REPLY` yield for one
pending probe: the reply count `n`, and (read only when `n > 0`) the
`Status` and `RoundTripTime` fields. -/
structure WReply where
  n : Nat
  status : Nat
  rtt : Nat
deriving DecidableEq, Repr

/-- Windows `struct PendingPing` (lines 133-139), reduced to what the harvest
and expiry phases inspect: the request and the deadline.  The event handle
and reply buffer are modelled by the `sig`/`rep` oracles of `harvestW`. -/
structure PendingPingW where
  req : PingRequest
  deadline : Int
deriving DecidableEq, Repr

/-- The outcome computed from a parsed reply buffer (lines 248-263):
`IP_SUCCESS` is status 0. -/
def outcomeOfReply (r : WReply) : Outcome :=
  if 0 < r.n then
    if r.status = 0 then ⟨true, Int.ofNat r.rtt, ""⟩
    else ⟨false, 0, "ICMP status " ++ toString r.status⟩
  else ⟨false, 0, "No ICMP reply"⟩

/-- The Windows harvest pass (lines 240-268): scan from the highest index
downward; every probe whose event is signaled (`sig`) is completed from its
parsed reply buffer (`rep`) and erased. -/
def harvestW (sig : Nat → Bool) (rep : Nat → WReply) :
    List PendingPingW → List (Nat × Outcome) × List PendingPingW
  | [] => ([], [])
  | pp :: rest =>
    let (rs, rest') := harvestW sig rep rest
    if sig pp.req.id then
      (rs ++ [(pp.req.id, outcomeOfReply (rep pp.req.id))], rest')
    else
      (rs, pp :: rest')

/-- The Windows expiry pass (lines 270-282), same downward scan. -/
def expireW (tNow : Int) : List PendingPingW → List (Nat × Outcome) × List PendingPingW
  | [] => ([], [])
  | pp :: rest =>
    let (rs, rest') := expireW tNow rest
    if pp.deadline ≤ tNow then
      (rs ++ [(pp.req.id, timeoutOutcome)], rest')
    else
      (rs, pp :: rest')

/-- Harvest then expire, in the order the Windows loop body performs them. -/
def harvestThenExpireW (sig : Nat → Bool) (rep : Nat → WReply) (tNow : Int)
    (pending : List PendingPingW) : List (Nat × Outcome) × List PendingPingW :=
  let (rs1, p1) := harvestW sig rep pending
  let (rs2, p2) := expireW tNow p1
  (rs1 ++ rs2, p2)

/-! ## Windows drain phase (lines 146-212) -/

/-- The result of one `IcmpSendEcho2` call (lines 172-209): nonzero return
(synchronous completion with a reply in the buffer), `ERROR_IO_PENDING`, or
another error code. -/
inductive EchoStart where
  | syncReply (status : Nat) (rtt : Nat)
  | ioPending
  | failed (code : Nat)
deriving DecidableEq, Repr

/-- Accumulator of the Windows drain loop; `icmpSends` lists the ids for
which `IcmpSendEcho2` was invoked. -/
structure DrainAccW where
  results : List (Nat × Outcome)
  pending : List PendingPingW
  icmpSends : List Nat
deriving DecidableEq, Repr

/-- One body of the Windows `for (auto* req : ping_queue)` (lines 149-210).
`createOk` models `IcmpCreateFile() != INVALID_HANDLE_VALUE`. -/
def dispatchOneW (dns : String → Option Addr) (createOk : PingRequest → Bool)
    (echo : PingRequest → EchoStart) (tNow : Int)
    (acc : DrainAccW) (req : PingRequest) : DrainAccW :=
  match dns req.host with
  | none =>
    { acc with results := acc.results ++ [(req.id, dnsFailOutcome req.host)] }
  | some _ =>
    if createOk req then
      match echo req with
      | EchoStart.syncReply status rtt =>
        { acc with
            results := acc.results ++
              [(req.id, if status = 0 then ⟨true, Int.ofNat rtt, ""⟩
                        else ⟨false, 0, "ICMP status " ++ toString status⟩)],
            icmpSends := acc.icmpSends ++ [req.id] }
      | EchoStart.ioPending =>
        { acc with
            pending := acc.pending ++ [⟨req, tNow + req.timeout_ms⟩],
            icmpSends := acc.icmpSends ++ [req.id] }
      | EchoStart.failed code =>
        { acc with
            results := acc.results ++
              [(req.id, ⟨false, 0, "IcmpSendEcho2 error " ++ toString code⟩)],
            icmpSends := acc.icmpSends ++ [req.id] }
    else
      { acc with results := acc.results ++ [(req.id, ⟨false, 0, "IcmpCreateFile failed"⟩)] }

/-- The whole Windows drain pass (lines 147-212). -/
def drainQueueW (dns : String → Option Addr) (createOk : PingRequest → Bool)
    (echo : PingRequest → EchoStart) (tNow : Int) (queue : List PingRequest)
    (pending0 : List PendingPingW) : DrainAccW :=
  queue.foldl (dispatchOneW dns createOk echo tNow) ⟨[], pending0, []⟩

/-! ## N-API entry points: Ping (lines 452-485), Shutdown (490-505),
CleanupHook (510-517) -/

/-- A JS argument as the validation code classifies it; `num` carries the
`Int32Value` of the number. -/
inductive JsVal where
  | str (s : String)
  | num (n : Int)
  | other
deriving DecidableEq, Repr

/-- What a `Ping` call returns to JS: a promise already resolved with an
outcome, a thrown `TypeError`, or a pending promise for an enqueued request. -/
inductive PingReturn where
  | resolvedOutcome (o : Outcome)
  | typeError (msg : String)
  | pendingPromise (reqId : Nat)
deriving DecidableEq, Repr

/-- The module-level mutable state the N-API entry points touch:
`shutting_down`, `ping_queue`, the thread's pending set (visible to the
model of the join performed by `Shutdown`), the outcomes delivered so far,
the number of wake-channel signals issued, whether the wake channel is still
open, whether the background thread is running, and a counter allocating
request ids. -/
structure ModuleState where
  shuttingDown : Bool
  queue : List PingRequest
  pending : List PendingPing
  results : List (Nat × Outcome)
  wakeSignals : Nat
  wakeOpen : Bool
  threadRunning : Bool
  nextReqId : Nat
deriving DecidableEq, Repr

/-- `info.Length() < 2 || !info[0].IsString() || !info[1].IsNumber()`
(line 465), as a predicate on the argument list. -/
def validPingArgs (args : List JsVal) : Bool :=
  match args with
  | JsVal.str _ :: JsVal.num _ :: _ => true
  | _ => false

/-- `if (timeout_ms <= 0) timeout_ms = 1000;` (line 473). -/
def normalizeTimeout (t : Int) : Int := if t ≤ 0 then 1000 else t

/-- `Ping(host, timeoutMs)` (lines 452-485).  Checked in source order:
the shutdown flag first (lines 455-463), then argument validation
(lines 465-469), then normalization, allocation, enqueue under the queue
mutex, and one wake signal. -/
def PingFn (args : List JsVal) (st : ModuleState) : PingReturn × ModuleState :=
  if st.shuttingDown then
    (PingReturn.resolvedOutcome ⟨false, 0, "shutting down"⟩, st)
  else
    match args with
    | JsVal.str host :: JsVal.num t :: _ =>
      let req : PingRequest := ⟨st.nextReqId, host, normalizeTimeout t⟩
      (PingReturn.pendingPromise req.id,
       { st with queue := st.queue ++ [req],
                 wakeSignals := st.wakeSignals + 1,
                 nextReqId := st.nextReqId + 1 })
    | _ => (PingReturn.typeError "Expected (host: string, timeoutMs: number)", st)

/-- `Shutdown` (lines 490-505): `shutting_down.exchange(true)`; on the first
call, wake the thread, join it (the thread exits its loop and performs the
shutdown drain of the pending set, lines 440-443), release the delivery
channel, and close the wake channel.  Any later call observes the flag set
and does nothing. -/
def ShutdownFn (st : ModuleState) : ModuleState :=
  if st.shuttingDown then st
  else
    { st with
        shuttingDown := true,
        wakeSignals := st.wakeSignals + 1,
        threadRunning := false,
        results := st.results ++ shutdownDrain st.pending,
        pending := [],
        wakeOpen := false }

/-- `CleanupHook` (lines 510-517): the same exchange-and-test teardown, but
it does not close the wake channel. -/
def CleanupHookFn (st : ModuleState) : ModuleState :=
  if st.shuttingDown then st
  else
    { st with
        shuttingDown := true,
        wakeSignals := st.wakeSignals + 1,
        threadRunning := false,
        results := st.results ++ shutdownDrain st.pending,
        pending := [] }

/-! # Theorems -/

/-! ## Checksum lemmas -/

/-- Folding terminates with a value below 2^16. -/
theorem foldCarry_lt (s : Nat) : foldCarry s < 65536 := by
  induction s using Nat.strong_induction_on with
  | _ s ih =>
    unfold foldCarry
    split
    · omega
    · exact ih _ (by omega)

/-- Folding never increases the sum. -/
theorem foldCarry_le (s : Nat) : foldCarry s ≤ s := by
  induction s using Nat.strong_induction_on with
  | _ s ih =>
    unfold foldCarry
    split
    · omega
    · have := ih (s % 65536 + s / 65536) (by omega)
      omega

/-- Folding preserves the value modulo 2^16 - 1, because
2^16 is congruent to 1. -/
theorem foldCarry_mod (s : Nat) : foldCarry s % 65535 = s % 65535 := by
  induction s using Nat.strong_induction_on with
  | _ s ih =>
    unfold foldCarry
    split
    · rfl
    · have := ih (s % 65536 + s / 65536) (by omega)
      omega

/-- Folding a positive sum yields a positive result. -/
theorem foldCarry_pos (s : Nat) (h : 0 < s) : 0 < foldCarry s := by
  induction s using Nat.strong_induction_on with
  | _ s ih =>
    unfold foldCarry
    split
    · omega
    · exact ih (s % 65536 + s / 65536) (by omega) (by omega)

/-- Folding the empty sum gives zero. -/
theorem foldCarry_zero : foldCarry 0 = 0 := by
  have := foldCarry_le 0
  omega

/-- Accumulating with a per-step wrap modulo 2^32 equals the plain sum taken
modulo 2^32 at the end. -/
theorem foldl_addWrap (l : List Nat) (a : Nat) :
    l.foldl (fun acc w => (acc + w) % 4294967296) (a % 4294967296) =
      (a + l.sum) % 4294967296 := by
  induction l generalizing a with
  | nil => simp
  | cons w tl ih =>
    simp only [List.foldl_cons, List.sum_cons]
    rw [Nat.mod_add_mod, ih (a + w), Nat.add_assoc]

/-- The `uint32_t` accumulator holds the plain word sum modulo 2^32. -/
theorem sumWords_eq_mod (bs : List Nat) :
    sumWords bs = (words16 bs).sum % 4294967296 := by
  have := foldl_addWrap (words16 bs) 0
  simpa [sumWords] using this

/-- The crucial no-overflow fact: for any `uint32_t` sum `M`, adding the
complement of its folded value stays below 2^32, so the verification re-sum
never wraps the accumulator. -/
theorem add_complement_lt (M : Nat) (h : M < 4294967296) :
    M + (65535 - foldCarry M) < 4294967296 := by
  rcases Nat.eq_zero_or_pos M with h0 | h0
  · subst h0
    rw [foldCarry_zero]
    omega
  · have h1 := foldCarry_lt M
    have h2 := foldCarry_mod M
    have h3 := foldCarry_pos M h0
    omega

/-- The complement-of-sum identity at the `uint32_t` level: take any plain
word sum `T`; the machine computes the checksum from `T % 2^32`; adding that
checksum back onto the sum and folding the wrapped result gives the all-ones
word 0xFFFF, the negative zero of ones-complement arithmetic. -/
theorem foldCarry_complement_wrap (T : Nat) :
    foldCarry ((T + (65535 - foldCarry (T % 4294967296))) % 4294967296) =
      65535 := by
  have hM : T % 4294967296 < 4294967296 := Nat.mod_lt _ (by omega)
  have hlt := add_complement_lt (T % 4294967296) hM
  have hF1 := foldCarry_lt (T % 4294967296)
  have hF2 := foldCarry_mod (T % 4294967296)
  have hmod : (T + (65535 - foldCarry (T % 4294967296))) % 4294967296 =
      T % 4294967296 + (65535 - foldCarry (T % 4294967296)) := by
    omega
  rw [hmod]
  have hpos : 0 < T % 4294967296 + (65535 - foldCarry (T % 4294967296)) := by
    rcases Nat.eq_zero_or_pos (T % 4294967296) with h0 | h0
    · rw [h0, foldCarry_zero]
      omega
    · omega
  have hA1 := foldCarry_lt
    (T % 4294967296 + (65535 - foldCarry (T % 4294967296)))
  have hA2 := foldCarry_mod
    (T % 4294967296 + (65535 - foldCarry (T % 4294967296)))
  have hA3 := foldCarry_pos
    (T % 4294967296 + (65535 - foldCarry (T % 4294967296))) hpos
  omega

/-- Writing a 16-bit value into bytes 2 and 3 (which were zero) adds exactly
that value to the plain word sum. -/
theorem wordSum_set_checksum (b0 b1 : Nat) (rest : List Nat) (c : Nat) :
    (words16 (set_checksum (b0 :: b1 :: 0 :: 0 :: rest) c)).sum =
      (words16 (b0 :: b1 :: 0 :: 0 :: rest)).sum + c := by
  simp only [set_checksum, List.set, words16, List.sum_cons]
  omega

/-- C3: For every byte sequence whose checksum field (bytes 2 and 3) is zero,
placing the value computed by `icmp_checksum` into the checksum field and
re-running the same ones-complement word sum — `uint32_t` wrap included —
with carry folding over the whole packet yields the negative zero 0xFFFF,
so the full checksum routine (complement included) yields 0.  Holds for any
length, odd lengths included, also beyond 2^32 worth of word sum. -/
theorem checksum_complement_of_sum (bs : List Nat)
    (hbytes : ∀ b ∈ bs, b < 256)
    (h2 : bs.get? 2 = some 0) (h3 : bs.get? 3 = some 0) :
    foldCarry (sumWords (set_checksum bs (icmp_checksum bs))) = 65535 ∧
      icmp_checksum (set_checksum bs (icmp_checksum bs)) = 0 := by
  match bs, h2, h3 with
  | b0 :: b1 :: b2 :: b3 :: rest, h2, h3 =>
    have hb2 : b2 = 0 := by simpa using h2
    have hb3 : b3 = 0 := by simpa using h3
    subst hb2 hb3
    have hset : sumWords (set_checksum (b0 :: b1 :: 0 :: 0 :: rest)
        (icmp_checksum (b0 :: b1 :: 0 :: 0 :: rest))) =
        ((words16 (b0 :: b1 :: 0 :: 0 :: rest)).sum +
          (65535 - foldCarry ((words16 (b0 :: b1 :: 0 :: 0 :: rest)).sum %
            4294967296))) % 4294967296 := by
      rw [sumWords_eq_mod, wordSum_set_checksum, icmp_checksum, sumWords_eq_mod]
    have hfold :
        foldCarry (sumWords (set_checksum (b0 :: b1 :: 0 :: 0 :: rest)
          (icmp_checksum (b0 :: b1 :: 0 :: 0 :: rest)))) = 65535 := by
      rw [hset]
      exact foldCarry_complement_wrap _
    refine ⟨hfold, ?_⟩
    rw [icmp_checksum, hfold]

/-- Witness for C3 on the concrete odd-length packet [8, 0, 0, 0, 7]. -/
theorem checksum_complement_of_sum_witness :
    ((∀ b ∈ [8, 0, 0, 0, 7], b < 256) ∧
      List.get? [8, 0, 0, 0, 7] 2 = some 0 ∧
      List.get? [8, 0, 0, 0, 7] 3 = some 0) ∧
    (foldCarry (sumWords (set_checksum [8, 0, 0, 0, 7]
        (icmp_checksum [8, 0, 0, 0, 7]))) = 65535 ∧
      icmp_checksum (set_checksum [8, 0, 0, 0, 7]
        (icmp_checksum [8, 0, 0, 0, 7])) = 0) :=
  ⟨⟨by decide, rfl, rfl⟩,
    checksum_complement_of_sum [8, 0, 0, 0, 7] (by decide) rfl rfl⟩

/-! ## Ping entry point: C6, C9, C10 -/

/-- C6: A `Ping` call made while the shutdown flag is set does not enqueue
anything (the whole module state is unchanged, so the queue and the wake
channel are untouched) and synchronously yields a resolved outcome with
`alive = false`, `elapsed = 0` and the "shutting down" diagnostic. -/
theorem ping_while_shutting_down (args : List JsVal) (st : ModuleState)
    (h : st.shuttingDown = true) :
    PingFn args st = (PingReturn.resolvedOutcome ⟨false, 0, "shutting down"⟩, st) := by
  simp [PingFn, h]

/-- Witness for C6 at a concrete state and argument list. -/
theorem ping_while_shutting_down_witness :
    (ModuleState.shuttingDown ⟨true, [], [], [], 0, true, true, 0⟩ = true) ∧
    PingFn [JsVal.str "example.com", JsVal.num 70] ⟨true, [], [], [], 0, true, true, 0⟩ =
      (PingReturn.resolvedOutcome ⟨false, 0, "shutting down"⟩,
        ⟨true, [], [], [], 0, true, true, 0⟩) :=
  ⟨rfl, ping_while_shutting_down _ _ rfl⟩

/-- C9: With valid argument types and the system running, a non-positive
`timeoutMs` is normalized to exactly 1000 ms and a positive one is kept
unchanged in the enqueued request. -/
theorem ping_timeout_normalized (host : String) (t : Int) (rest : List JsVal)
    (st : ModuleState) (h : st.shuttingDown = false) :
    (PingFn (JsVal.str host :: JsVal.num t :: rest) st).2.queue =
      st.queue ++ [⟨st.nextReqId, host, normalizeTimeout t⟩] ∧
    (t ≤ 0 → normalizeTimeout t = 1000) ∧
    (0 < t → normalizeTimeout t = t) := by
  refine ⟨by simp [PingFn, h], fun ht => by simp [normalizeTimeout, ht], fun ht => ?_⟩
  simp only [normalizeTimeout, ite_eq_right_iff]
  omega

/-- Witness for C9: timeout 0 becomes 1000, timeout 250 is kept. -/
theorem ping_timeout_normalized_witness :
    (ModuleState.shuttingDown ⟨false, [], [], [], 0, true, true, 4⟩ = false) ∧
    ((PingFn [JsVal.str "a.example", JsVal.num 0]
        ⟨false, [], [], [], 0, true, true, 4⟩).2.queue =
      [] ++ [⟨4, "a.example", normalizeTimeout 0⟩] ∧
      ((0 : Int) ≤ 0 → normalizeTimeout 0 = 1000) ∧
      ((0 : Int) < 0 → normalizeTimeout 0 = 0)) ∧
    ((PingFn [JsVal.str "a.example", JsVal.num 250]
        ⟨false, [], [], [], 0, true, true, 4⟩).2.queue =
      [] ++ [⟨4, "a.example", normalizeTimeout 250⟩] ∧
      ((250 : Int) ≤ 0 → normalizeTimeout 250 = 1000) ∧
      ((0 : Int) < 250 → normalizeTimeout 250 = 250)) :=
  ⟨rfl, ping_timeout_normalized "a.example" 0 [] _ rfl,
    ping_timeout_normalized "a.example" 250 [] _ rfl⟩

/-- C10: While not shutting down, a call with fewer than two arguments, a
non-string first argument or a non-number second argument throws the
`TypeError` synchronously and leaves the module state — queue, wake-signal
count, everything — unchanged, so no outcome is ever produced for it. -/
theorem ping_invalid_args_throws (args : List JsVal) (st : ModuleState)
    (h : st.shuttingDown = false) (hargs : validPingArgs args = false) :
    PingFn args st =
      (PingReturn.typeError "Expected (host: string, timeoutMs: number)", st) := by
  cases args with
  | nil => simp [PingFn, h]
  | cons a tl =>
    cases a with
    | num n => simp [PingFn, h]
    | other => simp [PingFn, h]
    | str s =>
      cases tl with
      | nil => simp [PingFn, h]
      | cons b tl2 =>
        cases b with
        | num m => simp [validPingArgs] at hargs
        | str s2 => simp [PingFn, h]
        | other => simp [PingFn, h]

/-- Witness for C10: a single numeric argument throws and changes nothing. -/
theorem ping_invalid_args_throws_witness :
    (ModuleState.shuttingDown ⟨false, [], [], [], 3, true, true, 7⟩ = false) ∧
    validPingArgs [JsVal.num 3] = false ∧
    PingFn [JsVal.num 3] ⟨false, [], [], [], 3, true, true, 7⟩ =
      (PingReturn.typeError "Expected (host: string, timeoutMs: number)",
        ⟨false, [], [], [], 3, true, true, 7⟩) :=
  ⟨rfl, rfl, ping_invalid_args_throws _ _ rfl rfl⟩

/-! ## Shutdown and the cleanup hook: C7 -/

/-- C7: `shutdown` is idempotent.  The first call sets the flag, signals the
wake channel once more, stops the background thread, and completes every
probe still pending with the non-alive shutdown outcome; a second or later
call — the `Shutdown` export or the process-level `CleanupHook` — observes
the flag already set and changes nothing. -/
theorem shutdown_idempotent :
    (∀ st : ModuleState, ShutdownFn (ShutdownFn st) = ShutdownFn st) ∧
    (∀ st : ModuleState, st.shuttingDown = true →
      ShutdownFn st = st ∧ CleanupHookFn st = st) ∧
    (∀ st : ModuleState, st.shuttingDown = false →
      (ShutdownFn st).shuttingDown = true ∧
      (ShutdownFn st).threadRunning = false ∧
      (ShutdownFn st).pending = [] ∧
      (ShutdownFn st).wakeSignals = st.wakeSignals + 1 ∧
      (∀ pp ∈ st.pending,
        (pp.req.id, shutdownOutcome) ∈ (ShutdownFn st).results)) := by
  refine ⟨fun st => ?_, fun st h => ?_, fun st h => ?_⟩
  · by_cases h : st.shuttingDown
    · simp [ShutdownFn, h]
    · simp [ShutdownFn, h]
  · exact ⟨by simp [ShutdownFn, h], by simp [CleanupHookFn, h]⟩
  · refine ⟨by simp [ShutdownFn, h], by simp [ShutdownFn, h],
      by simp [ShutdownFn, h], by simp [ShutdownFn, h], fun pp hpp => ?_⟩
    simp only [ShutdownFn, h, Bool.false_eq_true, if_false]
    exact List.mem_append_right _
      (List.mem_map_of_mem (fun q => (q.req.id, shutdownOutcome)) hpp)

/-- Witness for C7 at a concrete state with one pending probe. -/
theorem shutdown_idempotent_witness :
    (ShutdownFn (ShutdownFn ⟨false, [], [⟨⟨3, "h.example", 1000⟩, 1, 9, 0, 100⟩], [], 0, true, true, 5⟩) =
      ShutdownFn ⟨false, [], [⟨⟨3, "h.example", 1000⟩, 1, 9, 0, 100⟩], [], 0, true, true, 5⟩) ∧
    (ModuleState.shuttingDown ⟨true, [], [], [], 1, false, false, 5⟩ = true ∧
      ShutdownFn ⟨true, [], [], [], 1, false, false, 5⟩ = ⟨true, [], [], [], 1, false, false, 5⟩ ∧
      CleanupHookFn ⟨true, [], [], [], 1, false, false, 5⟩ = ⟨true, [], [], [], 1, false, false, 5⟩) ∧
    (ModuleState.shuttingDown ⟨false, [], [⟨⟨3, "h.example", 1000⟩, 1, 9, 0, 100⟩], [], 0, true, true, 5⟩ = false ∧
      (⟨⟨3, "h.example", 1000⟩, 1, 9, 0, 100⟩ : PendingPing) ∈
        ModuleState.pending ⟨false, [], [⟨⟨3, "h.example", 1000⟩, 1, 9, 0, 100⟩], [], 0, true, true, 5⟩ ∧
      ((3 : Nat), shutdownOutcome) ∈
        (ShutdownFn ⟨false, [], [⟨⟨3, "h.example", 1000⟩, 1, 9, 0, 100⟩], [], 0, true, true, 5⟩).results) :=
  ⟨shutdown_idempotent.1 _,
    ⟨rfl, (shutdown_idempotent.2.1 _ rfl).1, (shutdown_idempotent.2.1 _ rfl).2⟩,
    ⟨rfl, by decide,
      (shutdown_idempotent.2.2 _ rfl).2.2.2.2
        (⟨⟨3, "h.example", 1000⟩, 1, 9, 0, 100⟩ : PendingPing) (by decide)⟩⟩

/-! ## Poll timeout: C8 -/

/-- The source's `if (pp.deadline < nearest) nearest = pp.deadline` fold is
the minimum fold over the deadlines. -/
theorem foldl_min_deadline (l : List PendingPing) (a : Int) :
    l.foldl (fun acc pp => if pp.deadline < acc then pp.deadline else acc) a =
      (l.map PendingPing.deadline).foldl min a := by
  induction l generalizing a with
  | nil => rfl
  | cons pp tl ih =>
    simp only [List.foldl_cons, List.map_cons]
    rw [ih]
    congr 1
    rw [min_def]
    split_ifs <;> omega

/-- C8: the timeout handed to `poll` equals
min(200 ms default, max(0, time to the nearest pending deadline)) — exactly
200 when the pending set is empty — and this is the value `loopIter` computes
from the post-drain pending set. -/
theorem poll_timeout_eq_spec :
    (∀ (pending : List PendingPing) (now : Int),
      poll_timeout pending now = poll_timeout_spec pending now) ∧
    (∀ now : Int, poll_timeout [] now = 200) ∧
    (∀ (inp : IterInput) (queue : List PingRequest) (st : LoopState),
      (loopIter inp queue st).2.1 =
        poll_timeout
          (drainQueue inp.dns inp.sendErr inp.tSend queue st.pending st.nextSeq).pending
          inp.tPoll) := by
  refine ⟨fun pending now => ?_, fun now => rfl, fun inp queue st => rfl⟩
  cases pending with
  | nil => rfl
  | cons p0 rest =>
    simp only [poll_timeout, poll_timeout_spec, nearestDeadline, List.foldl_cons,
      lt_irrefl, if_false, foldl_min_deadline]
    rw [min_def, max_def]
    split_ifs <;> omega

/-! ## The POSIX thread function: C1 and C2 (both code bugs) -/

/-- C2, evaluated at the failing input: when the shared ICMP socket cannot be
opened, `ping_thread_func` returns at line 318 without draining anything, so
no probe — submitted before or after the failure — ever receives an outcome,
for any trace of submissions. -/
theorem socket_failure_posts_no_outcome
    (steps : List (IterInput × List PingRequest))
    (residualQueue : List PingRequest) (st : LoopState) :
    ping_thread_model false steps residualQueue st = [] ∧
    ∀ i o, (i, o) ∉ ping_thread_model false steps residualQueue st := by
  exact ⟨rfl, by simp [ping_thread_model]⟩

/-- C1, evaluated at the failing input: request 1 is accepted by `Ping`
(enqueued, promise returned) while the system is running, but if the thread
observes the shutdown flag before another drain pass — here a trace of zero
further iterations — the loop exits, the shutdown drain walks only the
pending set, and no outcome is ever posted for the enqueued request. -/
theorem accepted_request_dropped_at_shutdown :
    (PingFn [JsVal.str "example.com", JsVal.num 1000]
        ⟨false, [], [], [], 0, true, true, 1⟩).1 = PingReturn.pendingPromise 1 ∧
    (PingFn [JsVal.str "example.com", JsVal.num 1000]
        ⟨false, [], [], [], 0, true, true, 1⟩).2.queue =
      [⟨1, "example.com", 1000⟩] ∧
    ping_thread_model true [] [⟨1, "example.com", 1000⟩] ⟨1, []⟩ = [] := by
  refine ⟨rfl, by decide, rfl⟩

/-! ## Drain-pass lemmas for C5 (POSIX) -/

/-- One dispatch step only appends to the posted results. -/
theorem dispatchOne_results_mono (dns : String → Option Addr)
    (sendErr : PingRequest → Option String) (tSend : Int) (acc : DrainAcc)
    (q : PingRequest) (r : Nat × Outcome) (h : r ∈ acc.results) :
    r ∈ (dispatchOne dns sendErr tSend acc q).results := by
  unfold dispatchOne
  rcases hd : dns q.host with _ | addr
  · simp [h]
  · rcases hs : sendErr q with _ | e <;> simp [h]

/-- A whole drain pass only appends to the posted results. -/
theorem drainFold_results_mono (dns : String → Option Addr)
    (sendErr : PingRequest → Option String) (tSend : Int)
    (queue : List PingRequest) (acc : DrainAcc) (r : Nat × Outcome)
    (h : r ∈ acc.results) :
    r ∈ (queue.foldl (dispatchOne dns sendErr tSend) acc).results := by
  induction queue generalizing acc with
  | nil => exact h
  | cons q tl ih =>
    exact ih _ (dispatchOne_results_mono dns sendErr tSend acc q r h)

/-- Every request of the queue whose hostname does not resolve has the
resolution-failure outcome posted by the drain pass. -/
theorem drainFold_dns_fail_posted (dns : String → Option Addr)
    (sendErr : PingRequest → Option String) (tSend : Int)
    (queue : List PingRequest) (acc : DrainAcc) (req : PingRequest)
    (hmem : req ∈ queue) (hdns : dns req.host = none) :
    (req.id, dnsFailOutcome req.host) ∈
      (queue.foldl (dispatchOne dns sendErr tSend) acc).results := by
  induction queue generalizing acc with
  | nil => cases hmem
  | cons q tl ih =>
    rcases List.mem_cons.mp hmem with rfl | hmem'
    · refine drainFold_results_mono dns sendErr tSend tl _ _ ?_
      unfold dispatchOne
      rw [hdns]
      simp
    · exact ih _ hmem'

/-- Provenance of pending entries: any entry of the pending set after one
dispatch step was already pending, or wraps the dispatched request — which
then had a successful resolution. -/
theorem dispatchOne_pending_provenance (dns : String → Option Addr)
    (sendErr : PingRequest → Option String) (tSend : Int) (acc : DrainAcc)
    (q : PingRequest) (pp : PendingPing)
    (h : pp ∈ (dispatchOne dns sendErr tSend acc q).pending) :
    pp ∈ acc.pending ∨ (pp.req = q ∧ (dns q.host).isSome) := by
  unfold dispatchOne at h
  rcases hd : dns q.host with _ | addr
  · rw [hd] at h
    exact Or.inl h
  · rw [hd] at h
    rcases hs : sendErr q with _ | e
    · rw [hs] at h
      simp only [List.mem_append, List.mem_singleton] at h
      rcases h with h | rfl
      · exact Or.inl h
      · exact Or.inr ⟨rfl, by simp [hd]⟩
    · rw [hs] at h
      exact Or.inl h

/-- Provenance of pending entries over a whole drain pass. -/
theorem drainFold_pending_provenance (dns : String → Option Addr)
    (sendErr : PingRequest → Option String) (tSend : Int)
    (queue : List PingRequest) (acc : DrainAcc) (pp : PendingPing)
    (h : pp ∈ (queue.foldl (dispatchOne dns sendErr tSend) acc).pending) :
    pp ∈ acc.pending ∨ ∃ r ∈ queue, pp.req = r ∧ (dns r.host).isSome := by
  induction queue generalizing acc with
  | nil => exact Or.inl h
  | cons q tl ih =>
    rcases ih _ h with h' | ⟨r, hr, hpr⟩
    · rcases dispatchOne_pending_provenance dns sendErr tSend acc q pp h' with h'' | h''
      · exact Or.inl h''
      · exact Or.inr ⟨q, List.mem_cons_self q tl, h''⟩
    · exact Or.inr ⟨r, List.mem_cons_of_mem q hr, hpr⟩

/-- Provenance of `sendto` invocations: one dispatch step calls `sendto`
only for the dispatched request, and only after a successful resolution. -/
theorem dispatchOne_sendto_provenance (dns : String → Option Addr)
    (sendErr : PingRequest → Option String) (tSend : Int) (acc : DrainAcc)
    (q : PingRequest) (i : Nat)
    (h : i ∈ (dispatchOne dns sendErr tSend acc q).sendtoCalls) :
    i ∈ acc.sendtoCalls ∨ (i = q.id ∧ (dns q.host).isSome) := by
  unfold dispatchOne at h
  rcases hd : dns q.host with _ | addr
  · rw [hd] at h
    exact Or.inl h
  · rw [hd] at h
    rcases hs : sendErr q with _ | e
    · rw [hs] at h
      simp only [List.mem_append, List.mem_singleton] at h
      rcases h with h | rfl
      · exact Or.inl h
      · exact Or.inr ⟨rfl, by simp [hd]⟩
    · rw [hs] at h
      simp only [List.mem_append, List.mem_singleton] at h
      rcases h with h | rfl
      · exact Or.inl h
      · exact Or.inr ⟨rfl, by simp [hd]⟩

/-- Provenance of `sendto` invocations over a whole drain pass. -/
theorem drainFold_sendto_provenance (dns : String → Option Addr)
    (sendErr : PingRequest → Option String) (tSend : Int)
    (queue : List PingRequest) (acc : DrainAcc) (i : Nat)
    (h : i ∈ (queue.foldl (dispatchOne dns sendErr tSend) acc).sendtoCalls) :
    i ∈ acc.sendtoCalls ∨ ∃ r ∈ queue, r.id = i ∧ (dns r.host).isSome := by
  induction queue generalizing acc with
  | nil => exact Or.inl h
  | cons q tl ih =>
    rcases ih _ h with h' | ⟨r, hr, hpr⟩
    · rcases dispatchOne_sendto_provenance dns sendErr tSend acc q i h' with h'' | h''
      · exact Or.inl h''
      · exact Or.inr ⟨q, List.mem_cons_self q tl, h''.1.symm, h''.2⟩
    · exact Or.inr ⟨r, List.mem_cons_of_mem q hr, hpr⟩

/-! ## Drain-pass lemmas for C5 (Windows) -/

/-- One Windows dispatch step only appends to the posted results. -/
theorem dispatchOneW_results_mono (dns : String → Option Addr)
    (createOk : PingRequest → Bool) (echo : PingRequest → EchoStart) (tNow : Int)
    (acc : DrainAccW) (q : PingRequest) (r : Nat × Outcome) (h : r ∈ acc.results) :
    r ∈ (dispatchOneW dns createOk echo tNow acc q).results := by
  unfold dispatchOneW
  rcases hd : dns q.host with _ | addr
  · simp [h]
  · by_cases hc : createOk q
    · rcases he : echo q with ⟨status, rtt⟩ | _ | code <;> simp [hc, h]
    · simp [hc, h]

/-- A whole Windows drain pass only appends to the posted results. -/
theorem drainFoldW_results_mono (dns : String → Option Addr)
    (createOk : PingRequest → Bool) (echo : PingRequest → EchoStart) (tNow : Int)
    (queue : List PingRequest) (acc : DrainAccW) (r : Nat × Outcome)
    (h : r ∈ acc.results) :
    r ∈ (queue.foldl (dispatchOneW dns createOk echo tNow) acc).results := by
  induction queue generalizing acc with
  | nil => exact h
  | cons q tl ih =>
    exact ih _ (dispatchOneW_results_mono dns createOk echo tNow acc q r h)

/-- Windows: every queued request whose hostname does not resolve has the
resolution-failure outcome posted by the drain pass. -/
theorem drainFoldW_dns_fail_posted (dns : String → Option Addr)
    (createOk : PingRequest → Bool) (echo : PingRequest → EchoStart) (tNow : Int)
    (queue : List PingRequest) (acc : DrainAccW) (req : PingRequest)
    (hmem : req ∈ queue) (hdns : dns req.host = none) :
    (req.id, dnsFailOutcome req.host) ∈
      (queue.foldl (dispatchOneW dns createOk echo tNow) acc).results := by
  induction queue generalizing acc with
  | nil => cases hmem
  | cons q tl ih =>
    rcases List.mem_cons.mp hmem with rfl | hmem'
    · refine drainFoldW_results_mono dns createOk echo tNow tl _ _ ?_
      unfold dispatchOneW
      rw [hdns]
      simp
    · exact ih _ hmem'

/-- Windows pending provenance for one dispatch step. -/
theorem dispatchOneW_pending_provenance (dns : String → Option Addr)
    (createOk : PingRequest → Bool) (echo : PingRequest → EchoStart) (tNow : Int)
    (acc : DrainAccW) (q : PingRequest) (pp : PendingPingW)
    (h : pp ∈ (dispatchOneW dns createOk echo tNow acc q).pending) :
    pp ∈ acc.pending ∨ (pp.req = q ∧ (dns q.host).isSome) := by
  unfold dispatchOneW at h
  rcases hd : dns q.host with _ | addr <;> rw [hd] at h
  · exact Or.inl h
  · by_cases hc : createOk q
    · rcases he : echo q with ⟨status, rtt⟩ | _ | code <;> rw [he] at h <;>
        simp only [hc, if_true] at h
      · exact Or.inl h
      · simp only [List.mem_append, List.mem_singleton] at h
        rcases h with h | rfl
        · exact Or.inl h
        · exact Or.inr ⟨rfl, by simp [hd]⟩
      · exact Or.inl h
    · simp only [hc, if_false] at h
      exact Or.inl h

/-- Windows pending provenance over a whole drain pass. -/
theorem drainFoldW_pending_provenance (dns : String → Option Addr)
    (createOk : PingRequest → Bool) (echo : PingRequest → EchoStart) (tNow : Int)
    (queue : List PingRequest) (acc : DrainAccW) (pp : PendingPingW)
    (h : pp ∈ (queue.foldl (dispatchOneW dns createOk echo tNow) acc).pending) :
    pp ∈ acc.pending ∨ ∃ r ∈ queue, pp.req = r ∧ (dns r.host).isSome := by
  induction queue generalizing acc with
  | nil => exact Or.inl h
  | cons q tl ih =>
    rcases ih _ h with h' | ⟨r, hr, hpr⟩
    · rcases dispatchOneW_pending_provenance dns createOk echo tNow acc q pp h' with h'' | h''
      · exact Or.inl h''
      · exact Or.inr ⟨q, List.mem_cons_self q tl, h''⟩
    · exact Or.inr ⟨r, List.mem_cons_of_mem q hr, hpr⟩

/-- Windows `IcmpSendEcho2` provenance for one dispatch step: the call is
made only for the dispatched request and only after a successful
resolution. -/
theorem dispatchOneW_send_provenance (dns : String → Option Addr)
    (createOk : PingRequest → Bool) (echo : PingRequest → EchoStart) (tNow : Int)
    (acc : DrainAccW) (q : PingRequest) (i : Nat)
    (h : i ∈ (dispatchOneW dns createOk echo tNow acc q).icmpSends) :
    i ∈ acc.icmpSends ∨ (i = q.id ∧ (dns q.host).isSome) := by
  unfold dispatchOneW at h
  rcases hd : dns q.host with _ | addr <;> rw [hd] at h
  · exact Or.inl h
  · by_cases hc : createOk q
    · rcases he : echo q with ⟨status, rtt⟩ | _ | code <;> rw [he] at h <;>
        simp only [hc, if_true, List.mem_append, List.mem_singleton] at h <;>
        [skip; skip; skip] <;>
        rcases h with h | rfl
      · exact Or.inl h
      · exact Or.inr ⟨rfl, by simp [hd]⟩
      · exact Or.inl h
      · exact Or.inr ⟨rfl, by simp [hd]⟩
      · exact Or.inl h
      · exact Or.inr ⟨rfl, by simp [hd]⟩
    · simp only [hc, if_false] at h
      exact Or.inl h

/-- Windows `IcmpSendEcho2` provenance over a whole drain pass. -/
theorem drainFoldW_send_provenance (dns : String → Option Addr)
    (createOk : PingRequest → Bool) (echo : PingRequest → EchoStart) (tNow : Int)
    (queue : List PingRequest) (acc : DrainAccW) (i : Nat)
    (h : i ∈ (queue.foldl (dispatchOneW dns createOk echo tNow) acc).icmpSends) :
    i ∈ acc.icmpSends ∨ ∃ r ∈ queue, r.id = i ∧ (dns r.host).isSome := by
  induction queue generalizing acc with
  | nil => exact Or.inl h
  | cons q tl ih =>
    rcases ih _ h with h' | ⟨r, hr, hpr⟩
    · rcases dispatchOneW_send_provenance dns createOk echo tNow acc q i h' with h'' | h''
      · exact Or.inl h''
      · exact Or.inr ⟨q, List.mem_cons_self q tl, h''.1.symm, h''.2⟩
    · exact Or.inr ⟨r, List.mem_cons_of_mem q hr, hpr⟩

/-- C5: In both variants, a queued request whose hostname fails to resolve
is completed within the same drain pass with the non-alive
resolution-failure outcome, no packet send is attempted for it (`sendto` on
POSIX, `IcmpSendEcho2` on Windows), and it is never added to the
pending-probe set: any pending entry bearing its id was pending before the
pass. -/
theorem dns_failure_completes_immediately :
    (∀ (dns : String → Option Addr) (sendErr : PingRequest → Option String)
        (tSend : Int) (queue : List PingRequest) (pending0 : List PendingPing)
        (seq0 : Nat) (req : PingRequest),
      req ∈ queue → (queue.map PingRequest.id).Nodup → dns req.host = none →
      ((req.id, dnsFailOutcome req.host) ∈
          (drainQueue dns sendErr tSend queue pending0 seq0).results ∧
        (∀ pp ∈ (drainQueue dns sendErr tSend queue pending0 seq0).pending,
          pp.req.id = req.id → pp ∈ pending0) ∧
        req.id ∉ (drainQueue dns sendErr tSend queue pending0 seq0).sendtoCalls)) ∧
    (∀ (dns : String → Option Addr) (createOk : PingRequest → Bool)
        (echo : PingRequest → EchoStart) (tNow : Int) (queue : List PingRequest)
        (pending0 : List PendingPingW) (req : PingRequest),
      req ∈ queue → (queue.map PingRequest.id).Nodup → dns req.host = none →
      ((req.id, dnsFailOutcome req.host) ∈
          (drainQueueW dns createOk echo tNow queue pending0).results ∧
        (∀ pp ∈ (drainQueueW dns createOk echo tNow queue pending0).pending,
          pp.req.id = req.id → pp ∈ pending0) ∧
        req.id ∉ (drainQueueW dns createOk echo tNow queue pending0).icmpSends)) := by
  constructor
  · intro dns sendErr tSend queue pending0 seq0 req hmem hnodup hdns
    refine ⟨drainFold_dns_fail_posted dns sendErr tSend queue _ req hmem hdns,
      fun pp hpp hid => ?_, fun hsend => ?_⟩
    · rcases drainFold_pending_provenance dns sendErr tSend queue _ pp hpp with h | ⟨r, hr, hpr, hsome⟩
      · exact h
      · have : r = req := List.inj_on_of_nodup_map hnodup hr hmem (by rw [← hpr, hid])
        rw [this, hdns] at hsome
        cases hsome
    · rcases drainFold_sendto_provenance dns sendErr tSend queue _ req.id hsend with h | ⟨r, hr, hid, hsome⟩
      · cases h
      · have : r = req := List.inj_on_of_nodup_map hnodup hr hmem hid
        rw [this, hdns] at hsome
        cases hsome
  · intro dns createOk echo tNow queue pending0 req hmem hnodup hdns
    refine ⟨drainFoldW_dns_fail_posted dns createOk echo tNow queue _ req hmem hdns,
      fun pp hpp hid => ?_, fun hsend => ?_⟩
    · rcases drainFoldW_pending_provenance dns createOk echo tNow queue _ pp hpp with h | ⟨r, hr, hpr, hsome⟩
      · exact h
      · have : r = req := List.inj_on_of_nodup_map hnodup hr hmem (by rw [← hpr, hid])
        rw [this, hdns] at hsome
        cases hsome
    · rcases drainFoldW_send_provenance dns createOk echo tNow queue _ req.id hsend with h | ⟨r, hr, hid, hsome⟩
      · cases h
      · have : r = req := List.inj_on_of_nodup_map hnodup hr hmem hid
        rw [this, hdns] at hsome
        cases hsome

/-- Witness for C5: a two-request queue where "bad.example" fails to resolve
and "ok.example" resolves to address 1. -/
theorem dns_failure_completes_immediately_witness :
    ((⟨1, "bad.example", 1000⟩ : PingRequest) ∈
        [(⟨1, "bad.example", 1000⟩ : PingRequest), ⟨2, "ok.example", 500⟩] ∧
      (([(⟨1, "bad.example", 1000⟩ : PingRequest), ⟨2, "ok.example", 500⟩].map
        PingRequest.id).Nodup) ∧
      (fun h => if h = "bad.example" then (none : Option Addr) else some 1)
        (PingRequest.host ⟨1, "bad.example", 1000⟩) = none) ∧
    ((1, dnsFailOutcome "bad.example") ∈
        (drainQueue (fun h => if h = "bad.example" then none else some 1)
          (fun _ => none) 0
          [⟨1, "bad.example", 1000⟩, ⟨2, "ok.example", 500⟩] [] 1).results ∧
      (∀ pp ∈ (drainQueue (fun h => if h = "bad.example" then none else some 1)
          (fun _ => none) 0
          [⟨1, "bad.example", 1000⟩, ⟨2, "ok.example", 500⟩] [] 1).pending,
        pp.req.id = 1 → pp ∈ ([] : List PendingPing)) ∧
      (1 : Nat) ∉ (drainQueue (fun h => if h = "bad.example" then none else some 1)
          (fun _ => none) 0
          [⟨1, "bad.example", 1000⟩, ⟨2, "ok.example", 500⟩] [] 1).sendtoCalls) ∧
    ((1, dnsFailOutcome "bad.example") ∈
        (drainQueueW (fun h => if h = "bad.example" then none else some 1)
          (fun _ => true) (fun _ => EchoStart.ioPending) 0
          [⟨1, "bad.example", 1000⟩, ⟨2, "ok.example", 500⟩] []).results ∧
      (∀ pp ∈ (drainQueueW (fun h => if h = "bad.example" then none else some 1)
          (fun _ => true) (fun _ => EchoStart.ioPending) 0
          [⟨1, "bad.example", 1000⟩, ⟨2, "ok.example", 500⟩] []).pending,
        pp.req.id = 1 → pp ∈ ([] : List PendingPingW)) ∧
      (1 : Nat) ∉ (drainQueueW (fun h => if h = "bad.example" then none else some 1)
          (fun _ => true) (fun _ => EchoStart.ioPending) 0
          [⟨1, "bad.example", 1000⟩, ⟨2, "ok.example", 500⟩] []).icmpSends) :=
  ⟨⟨by decide, by decide, by decide⟩,
    dns_failure_completes_immediately.1
      (fun h => if h = "bad.example" then none else some 1) (fun _ => none) 0
      [⟨1, "bad.example", 1000⟩, ⟨2, "ok.example", 500⟩] [] 1
      ⟨1, "bad.example", 1000⟩ (by decide) (by decide) (by decide),
    dns_failure_completes_immediately.2
      (fun h => if h = "bad.example" then none else some 1) (fun _ => true)
      (fun _ => EchoStart.ioPending) 0
      [⟨1, "bad.example", 1000⟩, ⟨2, "ok.example", 500⟩] []
      ⟨1, "bad.example", 1000⟩ (by decide) (by decide) (by decide)⟩

/-! ## Harvest-phase lemmas for C4 (POSIX) -/

/-- Equation: the scan of the empty pending list. -/
theorem harvestDatagram_nil (t : Int) (rs : Nat) (src : Addr) :
    harvestDatagram t rs src [] = (none, []) := rfl

/-- Equation: a match in the tail (a higher index) wins. -/
theorem harvestDatagram_cons_some (t : Int) (rs : Nat) (src : Addr)
    (pp : PendingPing) (rest : List PendingPing) (r : Nat × Outcome)
    (rest' : List PendingPing)
    (h : harvestDatagram t rs src rest = (some r, rest')) :
    harvestDatagram t rs src (pp :: rest) = (some r, pp :: rest') := by
  unfold harvestDatagram
  rw [h]

/-- Equation: no match in the tail and the head matches. -/
theorem harvestDatagram_cons_none_hit (t : Int) (rs : Nat) (src : Addr)
    (pp : PendingPing) (rest rest' : List PendingPing)
    (h : harvestDatagram t rs src rest = (none, rest'))
    (hc : pp.seq = rs ∧ pp.dest = src) :
    harvestDatagram t rs src (pp :: rest) =
      (some (pp.req.id, aliveOutcome t pp), rest') := by
  unfold harvestDatagram
  rw [h]
  exact if_pos hc

/-- Equation: no match in the tail and the head does not match. -/
theorem harvestDatagram_cons_none_miss (t : Int) (rs : Nat) (src : Addr)
    (pp : PendingPing) (rest rest' : List PendingPing)
    (h : harvestDatagram t rs src rest = (none, rest'))
    (hc : ¬(pp.seq = rs ∧ pp.dest = src)) :
    harvestDatagram t rs src (pp :: rest) = (none, pp :: rest') := by
  unfold harvestDatagram
  rw [h]
  exact if_neg hc

/-- The downward match scan only removes entries. -/
theorem harvestDatagram_sublist (t : Int) (rs : Nat) (src : Addr)
    (P : List PendingPing) : (harvestDatagram t rs src P).2.Sublist P := by
  induction P with
  | nil => simp [harvestDatagram_nil]
  | cons pp rest ih =>
    rcases hh : harvestDatagram t rs src rest with ⟨ro, rest'⟩
    have ih' : rest'.Sublist rest := by rw [hh] at ih; exact ih
    cases ro with
    | some r =>
      rw [harvestDatagram_cons_some t rs src pp rest r rest' hh]
      exact List.Sublist.cons₂ pp ih'
    | none =>
      by_cases hc : pp.seq = rs ∧ pp.dest = src
      · rw [harvestDatagram_cons_none_hit t rs src pp rest rest' hh hc]
        exact List.Sublist.cons pp ih'
      · rw [harvestDatagram_cons_none_miss t rs src pp rest rest' hh hc]
        exact List.Sublist.cons₂ pp ih'

/-- If no entry matches the datagram key, the scan posts nothing and leaves
the pending list unchanged. -/
theorem harvestDatagram_no_match (t : Int) (rs : Nat) (src : Addr)
    (P : List PendingPing) (h : ∀ q ∈ P, ¬(q.seq = rs ∧ q.dest = src)) :
    harvestDatagram t rs src P = (none, P) := by
  induction P with
  | nil => rfl
  | cons pp rest ih =>
    exact harvestDatagram_cons_none_miss t rs src pp rest rest
      (ih fun q hq => h q (List.mem_cons_of_mem pp hq))
      (h pp (List.mem_cons_self pp rest))

/-- If the scan posts nothing, the pending list is unchanged. -/
theorem harvestDatagram_none_eq (t : Int) (rs : Nat) (src : Addr)
    (P : List PendingPing) (h : (harvestDatagram t rs src P).1 = none) :
    (harvestDatagram t rs src P).2 = P := by
  induction P with
  | nil => rfl
  | cons pp rest ih =>
    rcases hh : harvestDatagram t rs src rest with ⟨ro, rest'⟩
    cases ro with
    | some r =>
      rw [harvestDatagram_cons_some t rs src pp rest r rest' hh] at h
      simp at h
    | none =>
      have heq : rest' = rest := by
        have := ih (by rw [hh])
        rw [hh] at this
        exact this
      by_cases hc : pp.seq = rs ∧ pp.dest = src
      · rw [harvestDatagram_cons_none_hit t rs src pp rest rest' hh hc] at h
        simp at h
      · rw [harvestDatagram_cons_none_miss t rs src pp rest rest' hh hc, heq]

/-- When the entry `pp` is the only one matching the datagram key, the scan
posts exactly `pp`'s alive outcome and erases `pp`. -/
theorem harvestDatagram_unique (t : Int) (P : List PendingPing) (pp : PendingPing)
    (hnd : P.Nodup) (hmem : pp ∈ P)
    (huniq : ∀ q ∈ P, q.seq = pp.seq → q.dest = pp.dest → q = pp) :
    harvestDatagram t pp.seq pp.dest P =
      (some (pp.req.id, aliveOutcome t pp), P.erase pp) := by
  induction P with
  | nil => cases hmem
  | cons pp' rest ih =>
    rcases List.mem_cons.mp hmem with rfl | hmem'
    · have hnr : pp ∉ rest := (List.nodup_cons.mp hnd).1
      have hnone : harvestDatagram t pp.seq pp.dest rest = (none, rest) :=
        harvestDatagram_no_match _ _ _ _ (fun q hq hc =>
          hnr ((huniq q (List.mem_cons_of_mem _ hq) hc.1 hc.2) ▸ hq))
      rw [harvestDatagram_cons_none_hit t pp.seq pp.dest pp rest rest hnone ⟨rfl, rfl⟩,
        List.erase_cons_head]
    · have hne : pp' ≠ pp := by
        rintro rfl
        exact (List.nodup_cons.mp hnd).1 hmem'
      have htail := ih (List.nodup_cons.mp hnd).2 hmem'
        (fun q hq => huniq q (List.mem_cons_of_mem _ hq))
      rw [harvestDatagram_cons_some t pp.seq pp.dest pp' rest _ _ htail,
        List.erase_cons_tail (by simp [hne])]

/-- Every result the scan posts belongs to a then-present entry that matches
the datagram key, and carries that entry's alive outcome. -/
theorem harvestDatagram_some_provenance (t : Int) (rs : Nat) (src : Addr)
    (P : List PendingPing) (j : Nat) (o : Outcome) (P' : List PendingPing)
    (h : harvestDatagram t rs src P = (some (j, o), P')) :
    ∃ q ∈ P, q.req.id = j ∧ o = aliveOutcome t q ∧ q.seq = rs ∧ q.dest = src := by
  induction P generalizing P' with
  | nil => simp [harvestDatagram_nil] at h
  | cons pp rest ih =>
    rcases hh : harvestDatagram t rs src rest with ⟨ro, rest'⟩
    cases ro with
    | some r =>
      rw [harvestDatagram_cons_some t rs src pp rest r rest' hh] at h
      simp only [Prod.mk.injEq, Option.some.injEq] at h
      obtain ⟨q, hq, hrest⟩ := ih rest' (by rw [hh, h.1])
      exact ⟨q, List.mem_cons_of_mem pp hq, hrest⟩
    | none =>
      by_cases hc : pp.seq = rs ∧ pp.dest = src
      · rw [harvestDatagram_cons_none_hit t rs src pp rest rest' hh hc] at h
        simp only [Prod.mk.injEq, Option.some.injEq] at h
        exact ⟨pp, List.mem_cons_self pp rest, h.1.1, h.1.2.symm, hc.1, hc.2⟩
      · rw [harvestDatagram_cons_none_miss t rs src pp rest rest' hh hc] at h
        simp at h

/-- An entry that does not match the datagram key survives the scan. -/
theorem harvestDatagram_mem_preserved (t : Int) (rs : Nat) (src : Addr)
    (P : List PendingPing) (q : PendingPing) (hq : q ∈ P)
    (hnm : ¬(q.seq = rs ∧ q.dest = src)) :
    q ∈ (harvestDatagram t rs src P).2 := by
  induction P with
  | nil => cases hq
  | cons pp rest ih =>
    rcases hh : harvestDatagram t rs src rest with ⟨ro, rest'⟩
    have hr2 : (harvestDatagram t rs src rest).2 = rest' := by rw [hh]
    cases ro with
    | some r =>
      rw [harvestDatagram_cons_some t rs src pp rest r rest' hh]
      rcases List.mem_cons.mp hq with rfl | hq'
      · exact List.mem_cons_self _ _
      · exact List.mem_cons_of_mem pp (hr2 ▸ ih hq')
    | none =>
      have heq : rest' = rest := by
        have := harvestDatagram_none_eq t rs src rest (by rw [hh])
        rw [hh] at this
        exact this
      by_cases hc : pp.seq = rs ∧ pp.dest = src
      · rw [harvestDatagram_cons_none_hit t rs src pp rest rest' hh hc]
        rcases List.mem_cons.mp hq with rfl | hq'
        · exact absurd hc hnm
        · rw [heq]
          exact hq'
      · rw [harvestDatagram_cons_none_miss t rs src pp rest rest' hh hc]
        rcases List.mem_cons.mp hq with rfl | hq'
        · exact List.mem_cons_self _ _
        · rw [heq]
          exact List.mem_cons_of_mem pp hq'

/-- Equation: the receive loop with no datagrams left. -/
theorem recvLoop_nil (t : Int) (P : List PendingPing) : recvLoop t [] P = ([], P) := rfl

/-- Equation: a short or non-echo-reply datagram is skipped. -/
theorem recvLoop_cons_invalid (t : Int) (d : Datagram) (rest : List Datagram)
    (P : List PendingPing) (hv : ¬validEchoReply d = true) :
    recvLoop t (d :: rest) P = recvLoop t rest P := by
  simp only [recvLoop]
  rw [if_neg hv]

/-- Equation: a valid datagram that matches a pending entry posts the match
and continues on the shrunken pending list. -/
theorem recvLoop_cons_some (t : Int) (d : Datagram) (rest : List Datagram)
    (P : List PendingPing) (r : Nat × Outcome) (P' : List PendingPing)
    (hv : validEchoReply d = true)
    (hh : harvestDatagram t (replySeq d) d.src P = (some r, P')) :
    recvLoop t (d :: rest) P =
      (r :: (recvLoop t rest P').1, (recvLoop t rest P').2) := by
  simp only [recvLoop]
  rw [if_pos hv, hh]

/-- Equation: a valid datagram that matches nothing is discarded. -/
theorem recvLoop_cons_none (t : Int) (d : Datagram) (rest : List Datagram)
    (P : List PendingPing) (P' : List PendingPing)
    (hv : validEchoReply d = true)
    (hh : harvestDatagram t (replySeq d) d.src P = (none, P')) :
    recvLoop t (d :: rest) P = recvLoop t rest P' := by
  simp only [recvLoop]
  rw [if_pos hv, hh]

/-- The receive loop only removes pending entries. -/
theorem recvLoop_sublist (t : Int) (ds : List Datagram) (P : List PendingPing) :
    (recvLoop t ds P).2.Sublist P := by
  induction ds generalizing P with
  | nil => simp [recvLoop_nil]
  | cons d rest ih =>
    by_cases hv : validEchoReply d = true
    · rcases hh : harvestDatagram t (replySeq d) d.src P with ⟨ro, P'⟩
      have hsub : P'.Sublist P := by
        have := harvestDatagram_sublist t (replySeq d) d.src P
        rw [hh] at this
        exact this
      cases ro with
      | some r =>
        rw [recvLoop_cons_some t d rest P r P' hv hh]
        exact (ih P').trans hsub
      | none =>
        rw [recvLoop_cons_none t d rest P P' hv hh]
        exact (ih P').trans hsub
    · rw [recvLoop_cons_invalid t d rest P hv]
      exact ih P

/-- If no pending entry bears the id `i`, the receive loop never posts an
outcome for `i` and `i` stays absent from the pending list. -/
theorem recvLoop_id_free (t : Int) (ds : List Datagram) (P : List PendingPing)
    (i : Nat) (h : ∀ q ∈ P, q.req.id ≠ i) :
    (∀ o, (i, o) ∉ (recvLoop t ds P).1) ∧
    (∀ q ∈ (recvLoop t ds P).2, q.req.id ≠ i) := by
  induction ds generalizing P with
  | nil =>
    rw [recvLoop_nil]
    exact ⟨fun o ho => List.not_mem_nil _ ho, h⟩
  | cons d rest ih =>
    by_cases hv : validEchoReply d = true
    · rcases hh : harvestDatagram t (replySeq d) d.src P with ⟨ro, P'⟩
      have hsub : P'.Sublist P := by
        have := harvestDatagram_sublist t (replySeq d) d.src P
        rw [hh] at this
        exact this
      have hP' : ∀ q ∈ P', q.req.id ≠ i := fun q hq => h q (hsub.subset hq)
      cases ro with
      | some r =>
        rcases r with ⟨j, o0⟩
        obtain ⟨q, hqP, hqid, -⟩ :=
          harvestDatagram_some_provenance t (replySeq d) d.src P j o0 P' hh
        have hj : j ≠ i := hqid ▸ h q hqP
        rw [recvLoop_cons_some t d rest P (j, o0) P' hv hh]
        refine ⟨fun o ho => ?_, (ih P' hP').2⟩
        rcases List.mem_cons.mp ho with heq | hmem
        · exact hj (congrArg Prod.fst heq).symm
        · exact (ih P' hP').1 o hmem
      | none =>
        rw [recvLoop_cons_none t d rest P P' hv hh]
        exact ih P' hP'
    · rw [recvLoop_cons_invalid t d rest P hv]
      exact ih P h

/-- Main receive lemma: if `pp` is the unique pending entry matching a valid
datagram of the pass, the receive loop posts exactly `pp`'s alive outcome,
removes `pp`'s id from the pending set, and posts nothing else for it. -/
theorem recvLoop_completes (t : Int) (ds : List Datagram) (P : List PendingPing)
    (pp : PendingPing) (d : Datagram)
    (hnd : (P.map fun q => q.req.id).Nodup)
    (hmem : pp ∈ P)
    (huniq : ∀ q ∈ P, q.seq = pp.seq → q.dest = pp.dest → q = pp)
    (hd : d ∈ ds) (hv : validEchoReply d = true)
    (hseq : replySeq d = pp.seq) (hsrc : d.src = pp.dest) :
    ((pp.req.id, aliveOutcome t pp) ∈ (recvLoop t ds P).1) ∧
    (∀ q ∈ (recvLoop t ds P).2, q.req.id ≠ pp.req.id) ∧
    (∀ o, (pp.req.id, o) ∈ (recvLoop t ds P).1 → o = aliveOutcome t pp) := by
  induction ds generalizing P with
  | nil => cases hd
  | cons d0 rest ih =>
    by_cases hv0 : validEchoReply d0 = true
    · by_cases hm : replySeq d0 = pp.seq ∧ d0.src = pp.dest
      · have hPnd : P.Nodup := List.Nodup.of_map _ hnd
        have hharv : harvestDatagram t (replySeq d0) d0.src P =
            (some (pp.req.id, aliveOutcome t pp), P.erase pp) := by
          rw [hm.1, hm.2]
          exact harvestDatagram_unique t P pp hPnd hmem huniq
        have herase : ∀ q ∈ P.erase pp, q.req.id ≠ pp.req.id := by
          intro q hq hid
          have hq' := (List.Nodup.mem_erase_iff hPnd).mp hq
          exact hq'.1 (List.inj_on_of_nodup_map hnd hq'.2 hmem hid)
        have hfree := recvLoop_id_free t rest (P.erase pp) pp.req.id herase
        rw [recvLoop_cons_some t d0 rest P (pp.req.id, aliveOutcome t pp)
          (P.erase pp) hv0 hharv]
        refine ⟨List.mem_cons_self _ _, hfree.2, fun o ho => ?_⟩
        rcases List.mem_cons.mp ho with heq | hmem2
        · exact congrArg Prod.snd heq
        · exact absurd hmem2 (hfree.1 o)
      · have hd' : d ∈ rest := by
          rcases List.mem_cons.mp hd with rfl | h'
          · exact absurd ⟨hseq, hsrc⟩ hm
          · exact h'
        rcases hh : harvestDatagram t (replySeq d0) d0.src P with ⟨ro, P'⟩
        have hsub : P'.Sublist P := by
          have := harvestDatagram_sublist t (replySeq d0) d0.src P
          rw [hh] at this
          exact this
        have hnd' : (P'.map fun q => q.req.id).Nodup :=
          List.Nodup.sublist (hsub.map _) hnd
        have hmem' : pp ∈ P' := by
          have := harvestDatagram_mem_preserved t (replySeq d0) d0.src P pp hmem
            (fun hcc => hm ⟨hcc.1.symm, hcc.2.symm⟩)
          rw [hh] at this
          exact this
        have huniq' : ∀ q ∈ P', q.seq = pp.seq → q.dest = pp.dest → q = pp :=
          fun q hq => huniq q (hsub.subset hq)
        cases ro with
        | some r =>
          rcases r with ⟨j, o0⟩
          obtain ⟨q, hqP, hqid, -, hqseq, hqdest⟩ :=
            harvestDatagram_some_provenance t (replySeq d0) d0.src P j o0 P' hh
          have hj : j ≠ pp.req.id := by
            intro hji
            have hqpp : q = pp :=
              List.inj_on_of_nodup_map hnd hqP hmem (by rw [hqid, hji])
            subst hqpp
            exact hm ⟨hqseq.symm, hqdest.symm⟩
          have hrec := ih P' hnd' hmem' huniq' hd'
          rw [recvLoop_cons_some t d0 rest P (j, o0) P' hv0 hh]
          refine ⟨List.mem_cons_of_mem _ hrec.1, hrec.2.1, fun o ho => ?_⟩
          rcases List.mem_cons.mp ho with heq | hmem2
          · exact absurd (congrArg Prod.fst heq).symm hj
          · exact hrec.2.2 o hmem2
        | none =>
          rw [recvLoop_cons_none t d0 rest P P' hv0 hh]
          exact ih P' hnd' hmem' huniq' hd'
    · have hd' : d ∈ rest := by
        rcases List.mem_cons.mp hd with rfl | h'
        · exact absurd hv hv0
        · exact h'
      rw [recvLoop_cons_invalid t d0 rest P hv0]
      exact ih P hnd hmem huniq hd'

/-- Equation: one step of the expiry scan. -/
theorem expireLoop_cons (t : Int) (pp : PendingPing) (rest : List PendingPing)
    (rs : List (Nat × Outcome)) (rest' : List PendingPing)
    (h : expireLoop t rest = (rs, rest')) :
    expireLoop t (pp :: rest) =
      if pp.deadline ≤ t then (rs ++ [(pp.req.id, timeoutOutcome)], rest')
      else (rs, pp :: rest') := by
  unfold expireLoop
  rw [h]

/-- Every timeout the expiry scan posts belongs to an entry of its input
list, and the surviving entries come from the input list. -/
theorem expireLoop_provenance (t : Int) (P : List PendingPing) :
    (∀ r ∈ (expireLoop t P).1, ∃ q ∈ P, q.req.id = r.1 ∧ r.2 = timeoutOutcome) ∧
    (∀ q ∈ (expireLoop t P).2, q ∈ P) := by
  induction P with
  | nil =>
    exact ⟨fun r hr => absurd hr (List.not_mem_nil r),
      fun q hq => absurd hq (List.not_mem_nil q)⟩
  | cons pp rest ih =>
    rcases hr : expireLoop t rest with ⟨rs, rest'⟩
    rw [hr] at ih
    rw [expireLoop_cons t pp rest rs rest' hr]
    by_cases hc : pp.deadline ≤ t
    · rw [if_pos hc]
      refine ⟨fun r hrr => ?_, fun q hq => List.mem_cons_of_mem pp (ih.2 q hq)⟩
      rcases List.mem_append.mp hrr with h1 | h1
      · obtain ⟨q, hq, hq2⟩ := ih.1 r h1
        exact ⟨q, List.mem_cons_of_mem pp hq, hq2⟩
      · rcases List.mem_singleton.mp h1 with rfl
        exact ⟨pp, List.mem_cons_self pp rest, rfl, rfl⟩
    · rw [if_neg hc]
      refine ⟨fun r hrr => ?_, fun q hq => ?_⟩
      · obtain ⟨q, hq, hq2⟩ := ih.1 r hrr
        exact ⟨q, List.mem_cons_of_mem pp hq, hq2⟩
      · rcases List.mem_cons.mp hq with rfl | hq'
        · exact List.mem_cons_self _ _
        · exact List.mem_cons_of_mem pp (ih.2 q hq')

/-! ## Harvest-phase lemmas for C4 (Windows) -/

/-- Equation: one step of the Windows harvest scan. -/
theorem harvestW_cons (sig : Nat → Bool) (rep : Nat → WReply) (pp : PendingPingW)
    (rest : List PendingPingW) (rs : List (Nat × Outcome))
    (rest' : List PendingPingW) (h : harvestW sig rep rest = (rs, rest')) :
    harvestW sig rep (pp :: rest) =
      if sig pp.req.id then
        (rs ++ [(pp.req.id, outcomeOfReply (rep pp.req.id))], rest')
      else (rs, pp :: rest') := by
  unfold harvestW
  rw [h]

/-- Equation: one step of the Windows expiry scan. -/
theorem expireW_cons (t : Int) (pp : PendingPingW) (rest : List PendingPingW)
    (rs : List (Nat × Outcome)) (rest' : List PendingPingW)
    (h : expireW t rest = (rs, rest')) :
    expireW t (pp :: rest) =
      if pp.deadline ≤ t then (rs ++ [(pp.req.id, timeoutOutcome)], rest')
      else (rs, pp :: rest') := by
  unfold expireW
  rw [h]

/-- Every pending probe whose event is signaled is completed by the harvest
pass with its parsed-reply outcome. -/
theorem harvestW_posted (sig : Nat → Bool) (rep : Nat → WReply)
    (P : List PendingPingW) (pp : PendingPingW) (hmem : pp ∈ P)
    (hsig : sig pp.req.id = true) :
    (pp.req.id, outcomeOfReply (rep pp.req.id)) ∈ (harvestW sig rep P).1 := by
  induction P with
  | nil => cases hmem
  | cons pp' rest ih =>
    rcases hr : harvestW sig rep rest with ⟨rs, rest'⟩
    rw [harvestW_cons sig rep pp' rest rs rest' hr]
    have ihr : (harvestW sig rep rest).1 = rs := by rw [hr]
    rcases List.mem_cons.mp hmem with rfl | hmem'
    · rw [if_pos hsig]
      exact List.mem_append_right _ (List.mem_singleton.mpr rfl)
    · by_cases hs : sig pp'.req.id = true
      · rw [if_pos hs]
        exact List.mem_append_left _ (ihr ▸ ih hmem')
      · rw [if_neg hs]
        exact ihr ▸ ih hmem'

/-- Every result the Windows harvest pass posts belongs to a signaled entry
of its input and carries that entry's parsed-reply outcome. -/
theorem harvestW_results_provenance (sig : Nat → Bool) (rep : Nat → WReply)
    (P : List PendingPingW) :
    ∀ r ∈ (harvestW sig rep P).1, ∃ q ∈ P, q.req.id = r.1 ∧
      r.2 = outcomeOfReply (rep q.req.id) ∧ sig q.req.id = true := by
  induction P with
  | nil => exact fun r hr => absurd hr (List.not_mem_nil r)
  | cons pp rest ih =>
    intro r hr
    rcases hh : harvestW sig rep rest with ⟨rs, rest'⟩
    rw [hh] at ih
    rw [harvestW_cons sig rep pp rest rs rest' hh] at hr
    by_cases hs : sig pp.req.id = true
    · rw [if_pos hs] at hr
      rcases List.mem_append.mp hr with h1 | h1
      · obtain ⟨q, hq, h2⟩ := ih r h1
        exact ⟨q, List.mem_cons_of_mem pp hq, h2⟩
      · rcases List.mem_singleton.mp h1 with rfl
        exact ⟨pp, List.mem_cons_self pp rest, rfl, rfl, hs⟩
    · rw [if_neg hs] at hr
      obtain ⟨q, hq, h2⟩ := ih r hr
      exact ⟨q, List.mem_cons_of_mem pp hq, h2⟩

/-- The entries surviving the Windows harvest pass are exactly input entries
whose event is not signaled. -/
theorem harvestW_pending_char (sig : Nat → Bool) (rep : Nat → WReply)
    (P : List PendingPingW) :
    ∀ q ∈ (harvestW sig rep P).2, q ∈ P ∧ sig q.req.id = false := by
  induction P with
  | nil => exact fun q hq => absurd hq (List.not_mem_nil q)
  | cons pp rest ih =>
    intro q hq
    rcases hh : harvestW sig rep rest with ⟨rs, rest'⟩
    rw [hh] at ih
    rw [harvestW_cons sig rep pp rest rs rest' hh] at hq
    by_cases hs : sig pp.req.id = true
    · rw [if_pos hs] at hq
      obtain ⟨h1, h2⟩ := ih q hq
      exact ⟨List.mem_cons_of_mem pp h1, h2⟩
    · rw [if_neg hs] at hq
      rcases List.mem_cons.mp hq with rfl | hq'
      · exact ⟨List.mem_cons_self _ _, Bool.not_eq_true _ ▸ hs⟩
      · obtain ⟨h1, h2⟩ := ih q hq'
        exact ⟨List.mem_cons_of_mem pp h1, h2⟩

/-- Windows expiry provenance, the analogue of `expireLoop_provenance`. -/
theorem expireW_provenance (t : Int) (P : List PendingPingW) :
    (∀ r ∈ (expireW t P).1, ∃ q ∈ P, q.req.id = r.1 ∧ r.2 = timeoutOutcome) ∧
    (∀ q ∈ (expireW t P).2, q ∈ P) := by
  induction P with
  | nil =>
    exact ⟨fun r hr => absurd hr (List.not_mem_nil r),
      fun q hq => absurd hq (List.not_mem_nil q)⟩
  | cons pp rest ih =>
    rcases hr : expireW t rest with ⟨rs, rest'⟩
    rw [hr] at ih
    rw [expireW_cons t pp rest rs rest' hr]
    by_cases hc : pp.deadline ≤ t
    · rw [if_pos hc]
      refine ⟨fun r hrr => ?_, fun q hq => List.mem_cons_of_mem pp (ih.2 q hq)⟩
      rcases List.mem_append.mp hrr with h1 | h1
      · obtain ⟨q, hq, hq2⟩ := ih.1 r h1
        exact ⟨q, List.mem_cons_of_mem pp hq, hq2⟩
      · rcases List.mem_singleton.mp h1 with rfl
        exact ⟨pp, List.mem_cons_self pp rest, rfl, rfl⟩
    · rw [if_neg hc]
      refine ⟨fun r hrr => ?_, fun q hq => ?_⟩
      · obtain ⟨q, hq, hq2⟩ := ih.1 r hrr
        exact ⟨q, List.mem_cons_of_mem pp hq, hq2⟩
      · rcases List.mem_cons.mp hq with rfl | hq'
        · exact List.mem_cons_self _ _
        · exact List.mem_cons_of_mem pp (ih.2 q hq')

/-- A parsed-reply outcome is never the timeout outcome: the alive case has
`alive = true`, and the two diagnostic strings differ from "timeout". -/
theorem outcomeOfReply_ne_timeout (r : WReply) :
    outcomeOfReply r ≠ timeoutOutcome := by
  unfold outcomeOfReply timeoutOutcome
  by_cases h1 : 0 < r.n
  · rw [if_pos h1]
    by_cases h2 : r.status = 0
    · rw [if_pos h2]
      intro h
      exact Bool.noConfusion (congrArg Outcome.alive h)
    · rw [if_neg h2]
      intro h
      have hlen := congrArg String.length (congrArg Outcome.error h)
      rw [String.length_append] at hlen
      have h12 : ("ICMP status ").length = 12 := rfl
      have h7 : ("timeout").length = 7 := rfl
      rw [h12, h7] at hlen
      omega
  · rw [if_neg h1]
    intro h
    exact absurd (congrArg Outcome.error h) (by decide)

/-! ## Phase-composition equations -/

/-- Composition of the POSIX post-poll phases with the socket ready. -/
theorem afterPoll_eq (tRecv tExpire : Int) (ds : List Datagram)
    (P : List PendingPing) (rs1 : List (Nat × Outcome)) (p1 : List PendingPing)
    (rs2 : List (Nat × Outcome)) (p2 : List PendingPing)
    (h1 : recvLoop tRecv ds P = (rs1, p1)) (h2 : expireLoop tExpire p1 = (rs2, p2)) :
    afterPoll true tRecv tExpire ds P = (rs1 ++ rs2, p2) := by
  unfold afterPoll
  rw [if_pos rfl, h1]
  show (rs1 ++ (expireLoop tExpire p1).1, (expireLoop tExpire p1).2) = (rs1 ++ rs2, p2)
  rw [h2]

/-- Composition of the Windows harvest-then-expire phases. -/
theorem harvestThenExpireW_eq (sig : Nat → Bool) (rep : Nat → WReply) (tNow : Int)
    (P : List PendingPingW) (rs1 : List (Nat × Outcome)) (p1 : List PendingPingW)
    (rs2 : List (Nat × Outcome)) (p2 : List PendingPingW)
    (h1 : harvestW sig rep P = (rs1, p1)) (h2 : expireW tNow p1 = (rs2, p2)) :
    harvestThenExpireW sig rep tNow P = (rs1 ++ rs2, p2) := by
  unfold harvestThenExpireW
  rw [h1]
  show (rs1 ++ (expireW tNow p1).1, (expireW tNow p1).2) = (rs1 ++ rs2, p2)
  rw [h2]

/-- C4: In both variants, the reply-harvest step of one loop pass runs
before the deadline-expiry step.  A pending probe whose reply is ready in
the same pass in which its deadline has also elapsed (`deadline ≤ tExpire`)
is completed with the reply outcome, never with the timeout outcome, and
only probes still pending after the harvest step can be expired (each
timeout posted belongs to an entry of the post-harvest pending list). -/
theorem harvest_runs_before_expiry :
    (∀ (tRecv tExpire : Int) (ds : List Datagram) (P : List PendingPing)
        (pp : PendingPing) (d : Datagram),
      (P.map fun q => q.req.id).Nodup → pp ∈ P →
      (∀ q ∈ P, q.seq = pp.seq → q.dest = pp.dest → q = pp) →
      d ∈ ds → validEchoReply d = true → replySeq d = pp.seq → d.src = pp.dest →
      pp.deadline ≤ tExpire →
      ((pp.req.id, aliveOutcome tRecv pp) ∈ (afterPoll true tRecv tExpire ds P).1 ∧
        (∀ o, (pp.req.id, o) ∈ (afterPoll true tRecv tExpire ds P).1 →
          o = aliveOutcome tRecv pp) ∧
        (pp.req.id, timeoutOutcome) ∉ (afterPoll true tRecv tExpire ds P).1)) ∧
    (∀ (tNow : Int) (sig : Nat → Bool) (rep : Nat → WReply)
        (P : List PendingPingW) (pp : PendingPingW),
      (P.map fun q => q.req.id).Nodup → pp ∈ P →
      sig pp.req.id = true → pp.deadline ≤ tNow →
      ((pp.req.id, outcomeOfReply (rep pp.req.id)) ∈
          (harvestThenExpireW sig rep tNow P).1 ∧
        (∀ o, (pp.req.id, o) ∈ (harvestThenExpireW sig rep tNow P).1 →
          o = outcomeOfReply (rep pp.req.id)) ∧
        (pp.req.id, timeoutOutcome) ∉ (harvestThenExpireW sig rep tNow P).1)) := by
  constructor
  · intro tRecv tExpire ds P pp d hnd hmem huniq hd hv hseq hsrc hdl
    rcases hR : recvLoop tRecv ds P with ⟨rs1, p1⟩
    rcases hE : expireLoop tExpire p1 with ⟨rs2, p2⟩
    rw [afterPoll_eq tRecv tExpire ds P rs1 p1 rs2 p2 hR hE]
    have hrec := recvLoop_completes tRecv ds P pp d hnd hmem huniq hd hv hseq hsrc
    rw [hR] at hrec
    have hexp := expireLoop_provenance tExpire p1
    rw [hE] at hexp
    have huni : ∀ o, (pp.req.id, o) ∈ rs1 ++ rs2 → o = aliveOutcome tRecv pp := by
      intro o ho
      rcases List.mem_append.mp ho with h1 | h1
      · exact hrec.2.2 o h1
      · obtain ⟨q, hq, hqid, -⟩ := hexp.1 (pp.req.id, o) h1
        exact absurd hqid (hrec.2.1 q hq)
    refine ⟨List.mem_append_left _ hrec.1, huni, fun hto => ?_⟩
    exact Bool.noConfusion (congrArg Outcome.alive (huni timeoutOutcome hto))
  · intro tNow sig rep P pp hnd hmem hsig hdl
    rcases hH : harvestW sig rep P with ⟨rs1, p1⟩
    rcases hE : expireW tNow p1 with ⟨rs2, p2⟩
    rw [harvestThenExpireW_eq sig rep tNow P rs1 p1 rs2 p2 hH hE]
    have hpost := harvestW_posted sig rep P pp hmem hsig
    rw [hH] at hpost
    have hprov := harvestW_results_provenance sig rep P
    rw [hH] at hprov
    have hpend := harvestW_pending_char sig rep P
    rw [hH] at hpend
    have hexp := expireW_provenance tNow p1
    rw [hE] at hexp
    have huni : ∀ o, (pp.req.id, o) ∈ rs1 ++ rs2 →
        o = outcomeOfReply (rep pp.req.id) := by
      intro o ho
      rcases List.mem_append.mp ho with h1 | h1
      · obtain ⟨q, hq, hqid, hout, -⟩ := hprov (pp.req.id, o) h1
        have hqpp : q = pp := List.inj_on_of_nodup_map hnd hq hmem hqid
        have hout' : o = outcomeOfReply (rep q.req.id) := hout
        rw [hout', hqpp]
      · obtain ⟨q, hq, hqid, -⟩ := hexp.1 (pp.req.id, o) h1
        obtain ⟨hqP, hqsig⟩ := hpend q hq
        have hqpp : q = pp := List.inj_on_of_nodup_map hnd hqP hmem hqid
        rw [hqpp, hsig] at hqsig
        exact Bool.noConfusion hqsig
    refine ⟨List.mem_append_left _ hpost, huni, fun hto => ?_⟩
    exact outcomeOfReply_ne_timeout _ (huni timeoutOutcome hto).symm

/-- Witness for C4: a single pending probe whose matching reply datagram is
ready in the same pass in which its deadline (100) has already elapsed
(clock readings 150). -/
theorem harvest_runs_before_expiry_witness :
    ((([(⟨⟨1, "h.example", 1000⟩, 5, 7, 0, 100⟩ : PendingPing)].map
        fun q => q.req.id).Nodup ∧
      (⟨⟨1, "h.example", 1000⟩, 5, 7, 0, 100⟩ : PendingPing) ∈
        [(⟨⟨1, "h.example", 1000⟩, 5, 7, 0, 100⟩ : PendingPing)] ∧
      validEchoReply ⟨[0, 0, 0, 0, 0, 0, 0, 5], 7⟩ = true ∧
      replySeq ⟨[0, 0, 0, 0, 0, 0, 0, 5], 7⟩ = 5 ∧
      (100 : Int) ≤ 150) ∧
      (((1 : Nat), aliveOutcome 150 ⟨⟨1, "h.example", 1000⟩, 5, 7, 0, 100⟩) ∈
          (afterPoll true 150 150 [⟨[0, 0, 0, 0, 0, 0, 0, 5], 7⟩]
            [⟨⟨1, "h.example", 1000⟩, 5, 7, 0, 100⟩]).1 ∧
        (∀ o, ((1 : Nat), o) ∈ (afterPoll true 150 150 [⟨[0, 0, 0, 0, 0, 0, 0, 5], 7⟩]
            [⟨⟨1, "h.example", 1000⟩, 5, 7, 0, 100⟩]).1 →
          o = aliveOutcome 150 ⟨⟨1, "h.example", 1000⟩, 5, 7, 0, 100⟩) ∧
        ((1 : Nat), timeoutOutcome) ∉ (afterPoll true 150 150
            [⟨[0, 0, 0, 0, 0, 0, 0, 5], 7⟩]
            [⟨⟨1, "h.example", 1000⟩, 5, 7, 0, 100⟩]).1)) ∧
    (((fun i => i == 2) (2 : Nat) = true ∧ (100 : Int) ≤ 150) ∧
      (((2 : Nat), outcomeOfReply ((fun _ => (⟨1, 0, 42⟩ : WReply)) (2 : Nat))) ∈
          (harvestThenExpireW (fun i => i == 2) (fun _ => ⟨1, 0, 42⟩) 150
            [⟨⟨2, "w.example", 500⟩, 100⟩]).1 ∧
        (∀ o, ((2 : Nat), o) ∈ (harvestThenExpireW (fun i => i == 2)
            (fun _ => ⟨1, 0, 42⟩) 150 [⟨⟨2, "w.example", 500⟩, 100⟩]).1 →
          o = outcomeOfReply ((fun _ => (⟨1, 0, 42⟩ : WReply)) (2 : Nat))) ∧
        ((2 : Nat), timeoutOutcome) ∉ (harvestThenExpireW (fun i => i == 2)
            (fun _ => ⟨1, 0, 42⟩) 150 [⟨⟨2, "w.example", 500⟩, 100⟩]).1)) :=
  ⟨⟨⟨by decide, by decide, by decide, by decide, by decide⟩,
    harvest_runs_before_expiry.1 150 150 [⟨[0, 0, 0, 0, 0, 0, 0, 5], 7⟩]
      [⟨⟨1, "h.example", 1000⟩, 5, 7, 0, 100⟩] ⟨⟨1, "h.example", 1000⟩, 5, 7, 0, 100⟩
      ⟨[0, 0, 0, 0, 0, 0, 0, 5], 7⟩ (by decide) (by decide) (by decide) (by decide)
      (by decide) (by decide) (by decide) (by decide)⟩,
    ⟨⟨by decide, by decide⟩,
      harvest_runs_before_expiry.2 150 (fun i => i == 2) (fun _ => ⟨1, 0, 42⟩)
        [⟨⟨2, "w.example", 500⟩, 100⟩] ⟨⟨2, "w.example", 500⟩, 100⟩
        (by decide) (by decide) (by decide) (by decide)⟩⟩

end IcmpPing
